import Mathlib

/-!
Verification of the `vime-embed` component (src/components/core/embed).

The component is shallowly embedded as a pure state machine: the Stencil
component instance becomes an `EmbedState`, every externally triggered
activity (prop changes, lifecycle callbacks, window messages, method calls)
becomes an `Event`, and the observable side effects (preconnect calls, event
emitter firings, `postMessage` deliveries) are logged as a `List Effect`.
The module-level `connected` set shared by all instances is threaded
explicitly; process-wide executions over several instances are modelled by
`GlobalState`/`gstep`/`gtrace`.

The helper utilities `appendParamsToURL`, `preconnect`, `isString` and
`onElementEntersViewport` are imported by the component from utility modules
that are not part of the sources; they are modelled from the spec where
needed (see the individual doc comments).  `preconnect` is kept abstract as
a result oracle `pc : String → Bool` ("returns success/failure", best
effort), and the viewport observer is modelled by the `Event.enterViewport`
event that it can deliver at any time while observed.
-/

/-- Abstract handle for a browsing context (`Window` object identity). -/
abbrev WindowHandle := Nat

/-- The inner `<iframe>` element: all the bridge reads from it is its
`contentWindow`, which may be `null` (modelled by `none`). -/
structure Iframe where
  contentWindow : Option WindowHandle
deriving DecidableEq, Repr

/-- The `Params` type of `utils/network`: a string-keyed mapping of
query parameters, modelled as an association list. -/
abbrev Params := List (String × String)

/-- The value bound to `message` in `onWindowMessage`:
`this.decoder?.(e.data) ?? e.data` is either the decoder's `Params` object
or the raw string payload. -/
inductive MsgPayload where
  | params (p : Params)
  | raw (s : String)
deriving DecidableEq, Repr

/-- JavaScript truthiness of the `message` value tested by
`if (message) this.embedMessage.emit(message)`: an object (the decoder's
`Params` result) is always truthy, a string is truthy iff non-empty. -/
def truthy : MsgPayload → Bool
  | .params _ => true
  | .raw s => s ≠ ""

/-- A minimal model of the JSON values handed to `postMessage`. -/
inductive JSValue where
  | null
  | boolean (b : Bool)
  | num (n : Int)
  | str (s : String)
  | arr (elems : List JSValue)
  | obj (fields : List (String × JSValue))
deriving Repr

/-- Escaping of one character inside a JSON string literal. -/
def escapeJSONChar (c : Char) : String :=
  if c = '\"' then "\\\"" else if c = '\\' then "\\\\" else String.singleton c

/-- Escaping of a JSON string literal body. -/
def escapeJSONString (s : String) : String :=
  String.join (s.data.map escapeJSONChar)

mutual

/-- `JSON.stringify` on the modelled values. -/
def jsonStringify : JSValue → String
  | .null => "null"
  | .boolean true => "true"
  | .boolean false => "false"
  | .num n => toString n
  | .str s => "\"" ++ escapeJSONString s ++ "\""
  | .arr es => "[" ++ jsonStringifyArr es ++ "]"
  | .obj fs => "\x7b" ++ jsonStringifyObj fs ++ "\x7d"

/-- Comma-joined serialization of a JSON array body. -/
def jsonStringifyArr : List JSValue → String
  | [] => ""
  | [e] => jsonStringify e
  | e :: e' :: rest => jsonStringify e ++ "," ++ jsonStringifyArr (e' :: rest)

/-- Comma-joined serialization of a JSON object body. -/
def jsonStringifyObj : List (String × JSValue) → String
  | [] => ""
  | [f] => "\"" ++ escapeJSONString f.1 ++ "\":" ++ jsonStringify f.2
  | f :: f' :: rest =>
      "\"" ++ escapeJSONString f.1 ++ "\":" ++ jsonStringify f.2 ++ ","
        ++ jsonStringifyObj (f' :: rest)

end

/-- Observable side effects of the component, in execution order:
`hint key url ok` is a call `preconnect(url)` returning `ok`, recorded in the
`connected` set under `key` when successful; the other constructors are the
three event emitters and an actual `contentWindow.postMessage` delivery. -/
inductive Effect where
  | hint (key : String) (url : String) (ok : Bool)
  | srcChangeEmit (url : String)
  | messageEmit (m : MsgPayload)
  | postDelivery (w : WindowHandle) (payload : String) (target : String)
  | loadedEmit
deriving DecidableEq, Repr

/-- The per-instance state of the `Embed` component: its props
(`embedSrc`, `mediaTitle`, `lazy`, `params`, `origin`, `preconnections`,
`decoder`), its `@State` fields (`srcWithParams`, `hasEnteredViewport`) and
the `iframe` ref. -/
structure EmbedState where
  embedSrc : String
  mediaTitle : String
  lazy : Bool
  params : Params
  srcWithParams : String
  hasEnteredViewport : Bool
  origin : Option String
  preconnections : List String
  decoder : Option (String → Option Params)
  iframe : Option Iframe

/-- The state a fresh instance is constructed with (the field
initializers of the class). -/
def initState : EmbedState :=
  { embedSrc := ""
    mediaTitle := ""
    lazy := true
    params := []
    srcWithParams := ""
    hasEnteredViewport := false
    origin := none
    preconnections := []
    decoder := none
    iframe := none }

/-- Externally triggered activity on one instance.  Prop assignments carry
the new value (the `@Watch` handlers run after the prop is updated);
`connect`/`disconnect` are the lifecycle callbacks; `enterViewport` is the
viewport observer firing its callback; `attachIframe` is the JSX `ref`
callback; `windowMessage src origin data` is a `message` event on `window`
(`src = none` models a `null` `e.source`); `post` is the public
`postMessage` method; `load` is the iframe's `load` event. -/
inductive Event where
  | setEmbedSrc (s : String)
  | setParams (p : Params)
  | setLazy (b : Bool)
  | setOrigin (o : Option String)
  | setPreconnections (l : List String)
  | setDecoder (d : Option (String → Option Params))
  | connect
  | disconnect
  | enterViewport
  | attachIframe (ifr : Option Iframe)
  | windowMessage (src : Option WindowHandle) (origin : String) (data : String)
  | post (m : JSValue) (target : Option String)
  | load

/- ### Spec-modelled network utilities -/

/-- Modelled from the spec: percent-escaping of one character of a query
component, as performed by the (missing) `utils/network` serializer via
`encodeURIComponent`; only the three characters that are significant for
the query-string structure are modelled. -/
def escChar (c : Char) : List Char :=
  if c = '%' then ['%', '2', '5']
  else if c = '&' then ['%', '2', '6']
  else if c = '=' then ['%', '3', 'D']
  else [c]

/-- Modelled from the spec: percent-escaping of a query component. -/
def escapeList : List Char → List Char
  | [] => []
  | c :: rest => escChar c ++ escapeList rest

/-- Modelled from the spec: one `key=value` pair of the query string. -/
def pairEnc (k v : List Char) : List Char :=
  escapeList k ++ '=' :: escapeList v

/-- Modelled from the spec: the `&`-joined query string of a parameter
list. -/
def qsEnc : List (List Char × List Char) → List Char
  | [] => []
  | p :: rest =>
      pairEnc p.1 p.2 ++ (if rest.isEmpty then [] else '&' :: qsEnc rest)

/-- Modelled from the spec (`utils/network` is not among the sources):
`parameters` serialized as a query string. -/
def serializeQueryString (ps : Params) : String :=
  ⟨qsEnc (ps.map fun p => (p.1.data, p.2.data))⟩

/-- Modelled from the spec (`utils/network` is not among the sources):
composed URL = `resourceURL` + serialized `parameters` as query string; an
empty parameter map returns the base URL unchanged (no dangling
separator). -/
def appendParamsToURL (url : String) (ps : Params) : String :=
  if ps.isEmpty then url else url ++ "?" ++ serializeQueryString ps

/-- Modelled from the spec (`utils/unit` is not among the sources):
`isString(this.origin)` holds exactly when an expected origin was
configured. -/
def isString (o : Option String) : Bool :=
  o.isSome

/- ### The component's handlers -/

/-- `srcWithParamsChange` (the `@Watch('srcWithParams')` handler): while the
element has not entered the viewport and `embedSrc` is not in the shared
`connected` set, call `preconnect(srcWithParams)` and on success record
`embedSrc`; then always emit `embedSrcChange` with the composed URL. -/
def srcWithParamsChangeRun (pc : String → Bool) (conn : List String)
    (st : EmbedState) : List String × List Effect :=
  if !st.hasEnteredViewport && !(conn.contains st.embedSrc) then
    let ok := pc st.srcWithParams
    ((if ok then st.embedSrc :: conn else conn),
      [Effect.hint st.embedSrc st.srcWithParams ok,
       Effect.srcChangeEmit st.srcWithParams])
  else
    (conn, [Effect.srcChangeEmit st.srcWithParams])

/-- Intermediate result of running one handler or event: the updated shared
`connected` set, the updated instance state, and the effects produced. -/
structure StepResult where
  conn : List String
  st : EmbedState
  effs : List Effect

/-- `srcChange` (the `@Watch('embedSrc')`/`@Watch('params')` handler):
recompute `srcWithParams = appendParamsToURL(embedSrc, params)`.  Assigning
the `@State` field fires the `srcWithParams` watcher exactly when the value
actually changed (Stencil skips watchers and re-renders when the assigned
value is identical). -/
def srcChangeRun (pc : String → Bool) (conn : List String)
    (st : EmbedState) : StepResult :=
  let newSrc := appendParamsToURL st.embedSrc st.params
  let st' := { st with srcWithParams := newSrc }
  if newSrc = st.srcWithParams then ⟨conn, st', []⟩
  else
    let r := srcWithParamsChangeRun pc conn st'
    ⟨r.1, st', r.2⟩

/-- The `forEach` loop of `preconnectionsChange`: call `preconnect` on each
pending connection, recording the successful ones in the shared set.  The
pending list was computed by `filter` before the loop started, so it is not
re-checked against the growing set. -/
def runPreconnects (pc : String → Bool) :
    List String → List String → List String × List Effect
  | [], conn => (conn, [])
  | c :: rest, conn =>
      let ok := pc c
      let conn1 := if ok then c :: conn else conn
      let r := runPreconnects pc rest conn1
      (r.1, Effect.hint c c ok :: r.2)

/-- `preconnectionsChange` (the `@Watch('preconnections')` handler): once
the element has entered the viewport, do nothing; otherwise preconnect every
listed connection not already in the shared `connected` set. -/
def preconnectionsChangeRun (pc : String → Bool) (conn : List String)
    (st : EmbedState) : List String × List Effect :=
  if st.hasEnteredViewport then (conn, [])
  else
    runPreconnects pc (st.preconnections.filter fun c => !(conn.contains c)) conn

/-- `onWindowMessage` (the `@Listen('message', { target: 'window' })`
handler).  `e.source === this.iframe?.contentWindow` is false whenever the
iframe ref is unset (`e.source` is a window or `null`, never `undefined`);
with an iframe present it compares `e.source` against `contentWindow`
(both possibly `null`).  The origin check is
`!isString(this.origin) || this.origin === e.origin`.  The accepted payload
is `this.decoder?.(e.data) ?? e.data`, emitted when truthy. -/
def onWindowMessage (st : EmbedState) (src : Option WindowHandle)
    (eorigin : String) (data : String) : List Effect :=
  let sourceMatches : Bool :=
    match st.iframe with
    | none => false
    | some ifr => src == ifr.contentWindow
  let originMatches : Bool :=
    sourceMatches && (!(isString st.origin) || st.origin == some eorigin)
  if !originMatches then []
  else
    let message : MsgPayload :=
      match st.decoder with
      | some d =>
          match d data with
          | some p => MsgPayload.params p
          | none => MsgPayload.raw data
      | none => MsgPayload.raw data
    if truthy message then [Effect.messageEmit message] else []

/-- The public `postMessage(message, target?)` method:
`this.iframe?.contentWindow?.postMessage(JSON.stringify(message),
(target ?? '*'))` — a total no-op when the iframe or its `contentWindow` is
absent, otherwise one serialized delivery. -/
def postMessageRun (st : EmbedState) (m : JSValue)
    (target : Option String) : List Effect :=
  match st.iframe with
  | none => []
  | some ifr =>
      match ifr.contentWindow with
      | none => []
      | some w => [Effect.postDelivery w (jsonStringify m) (target.getD "*")]

/-- The `src` attribute value produced by `render()`:
`(!this.lazy || this.hasEnteredViewport) ? this.srcWithParams : undefined`. -/
def renderSrc (st : EmbedState) : Option String :=
  if !st.lazy || st.hasEnteredViewport then some st.srcWithParams else none

/-- One externally triggered step of a single instance, given the
`preconnect` result oracle `pc` and the shared `connected` set. -/
def instStep (pc : String → Bool) (conn : List String) (st : EmbedState) :
    Event → StepResult
  | .setEmbedSrc s => srcChangeRun pc conn { st with embedSrc := s }
  | .setParams p => srcChangeRun pc conn { st with params := p }
  | .setLazy b => ⟨conn, { st with lazy := b }, []⟩
  | .setOrigin o => ⟨conn, { st with origin := o }, []⟩
  | .setPreconnections l =>
      let st' := { st with preconnections := l }
      let r := preconnectionsChangeRun pc conn st'
      ⟨r.1, st', r.2⟩
  | .setDecoder d => ⟨conn, { st with decoder := d }, []⟩
  | .connect => srcChangeRun pc conn st
  | .disconnect => ⟨conn, st, []⟩
  | .enterViewport => ⟨conn, { st with hasEnteredViewport := true }, []⟩
  | .attachIframe i => ⟨conn, { st with iframe := i }, []⟩
  | .windowMessage src org data => ⟨conn, st, onWindowMessage st src org data⟩
  | .post m t => ⟨conn, st, postMessageRun st m t⟩
  | .load => ⟨conn, st, [Effect.loadedEmit]⟩

/-- Run a sequence of events against one instance, accumulating effects. -/
def instTrace (pc : String → Bool) (conn : List String) (st : EmbedState) :
    List Event → StepResult
  | [] => ⟨conn, st, []⟩
  | e :: rest =>
      let r := instStep pc conn st e
      let r' := instTrace pc r.conn r.st rest
      ⟨r'.conn, r'.st, r.effs ++ r'.effs⟩

/- ### Process-wide executions over several instances -/

/-- The process-wide state: the module-level `connected` set shared by all
instances, and the per-instance states. -/
structure GlobalState where
  conn : List String
  insts : List EmbedState

/-- A fresh process hosting `n` fresh instances. -/
def ginit (n : Nat) : GlobalState :=
  ⟨[], List.replicate n initState⟩

/-- One event delivered to instance `i` of the process. -/
def gstep (pc : String → Bool) (gs : GlobalState) :
    Nat × Event → GlobalState × List Effect
  | (i, e) =>
      match gs.insts[i]? with
      | none => (gs, [])
      | some st =>
          let r := instStep pc gs.conn st e
          (⟨r.conn, gs.insts.set i r.st⟩, r.effs)

/-- Run a process-wide sequence of events, accumulating effects. -/
def gtrace (pc : String → Bool) :
    GlobalState → List (Nat × Event) → GlobalState × List Effect
  | gs, [] => (gs, [])
  | gs, e :: rest =>
      let r := gstep pc gs e
      let r' := gtrace pc r.1 rest
      (r'.1, r.2 ++ r'.2)

/- ### Effect observations -/

/-- Whether an effect is a successful preconnect recorded under key `k`. -/
def isKeyHint (k : String) : Effect → Bool
  | .hint key _ ok => key == k && ok
  | _ => false

/-- Number of successful preconnects recorded under key `k`. -/
def hintKeyCount (k : String) (effs : List Effect) : Nat :=
  (effs.filter (isKeyHint k)).length

/-- Whether an effect is a successful preconnect whose hinted URL is `k`. -/
def isUrlHint (k : String) : Effect → Bool
  | .hint _ url ok => url == k && ok
  | _ => false

/-- Number of successful preconnects issued for destination URL `k`. -/
def urlHintCount (k : String) (effs : List Effect) : Nat :=
  (effs.filter (isUrlHint k)).length

/-- Whether an effect is any `preconnect` call at all. -/
def isHint : Effect → Bool
  | .hint _ _ _ => true
  | _ => false

/-- Boolean duplicate-freedom of a string list. -/
def listNodupb : List String → Bool
  | [] => true
  | c :: rest => !(rest.contains c) && listNodupb rest

/-- An event is duplicate-safe when any `preconnections` list it installs is
duplicate-free. -/
def nodupOKb : Event → Bool
  | .setPreconnections l => listNodupb l
  | _ => true

/- ### Injectivity of the query-string serialization

The escaping of the separator characters makes the composed URL injective in
each of `embedSrc` (for fixed `params`) and `params` (for fixed `embedSrc`),
which is what makes the `srcWithParams` change-detection fire exactly on
real configuration changes. -/

theorem escChar_ne_nil (c : Char) : escChar c ≠ [] := by
  unfold escChar
  split_ifs <;> simp

theorem amp_not_mem_escChar (c : Char) : '&' ∉ escChar c := by
  unfold escChar
  split_ifs with h1 h2 h3
  · decide
  · decide
  · decide
  · intro hmem
    rw [List.mem_singleton] at hmem
    exact h2 hmem.symm

theorem eq_not_mem_escChar (c : Char) : '=' ∉ escChar c := by
  unfold escChar
  split_ifs with h1 h2 h3
  · decide
  · decide
  · decide
  · intro hmem
    rw [List.mem_singleton] at hmem
    exact h3 hmem.symm

theorem escChar_append_inj {a b : Char} {s t : List Char}
    (h : escChar a ++ s = escChar b ++ t) : a = b ∧ s = t := by
  unfold escChar at h
  split_ifs at h <;> (try simp_all) <;> exact absurd h.1.symm (by assumption)

theorem amp_not_mem_escapeList (s : List Char) : '&' ∉ escapeList s := by
  induction s with
  | nil => simp [escapeList]
  | cons c rest ih =>
    simp only [escapeList, List.mem_append, not_or]
    exact ⟨amp_not_mem_escChar c, ih⟩

theorem eq_not_mem_escapeList (s : List Char) : '=' ∉ escapeList s := by
  induction s with
  | nil => simp [escapeList]
  | cons c rest ih =>
    simp only [escapeList, List.mem_append, not_or]
    exact ⟨eq_not_mem_escChar c, ih⟩

theorem escapeList_inj : ∀ {s t : List Char}, escapeList s = escapeList t → s = t := by
  intro s
  induction s with
  | nil =>
    intro t h
    cases t with
    | nil => rfl
    | cons c t' =>
      exact absurd (List.append_eq_nil.mp h.symm).1 (escChar_ne_nil c)
  | cons a s' ih =>
    intro t h
    cases t with
    | nil =>
      exact absurd (List.append_eq_nil.mp h).1 (escChar_ne_nil a)
    | cons b t' =>
      obtain ⟨hab, hst⟩ := escChar_append_inj h
      rw [hab, ih hst]

theorem sep_append_inj {sep : Char} :
    ∀ {a c b d : List Char}, sep ∉ a → sep ∉ c →
      a ++ sep :: b = c ++ sep :: d → a = c ∧ b = d := by
  intro a
  induction a with
  | nil =>
    intro c b d _ hc h
    cases c with
    | nil => simpa using h
    | cons x c' =>
      exfalso
      simp only [List.nil_append, List.cons_append, List.cons.injEq] at h
      apply hc
      rw [h.1]
      exact List.mem_cons_self x c'
  | cons y a' ih =>
    intro c b d ha hc h
    cases c with
    | nil =>
      exfalso
      simp only [List.cons_append, List.nil_append, List.cons.injEq] at h
      apply ha
      rw [← h.1]
      exact List.mem_cons_self y a'
    | cons x c' =>
      simp only [List.cons_append, List.cons.injEq] at h
      obtain ⟨hxy, h'⟩ := h
      have ha' : sep ∉ a' := fun hm => ha (List.mem_cons_of_mem _ hm)
      have hc' : sep ∉ c' := fun hm => hc (List.mem_cons_of_mem _ hm)
      obtain ⟨h1, h2⟩ := ih ha' hc' h'
      exact ⟨by rw [hxy, h1], h2⟩

theorem pairEnc_ne_nil (k v : List Char) : pairEnc k v ≠ [] := by
  unfold pairEnc
  intro h
  have := (List.append_eq_nil.mp h).2
  simp at this

theorem amp_not_mem_pairEnc (k v : List Char) : '&' ∉ pairEnc k v := by
  unfold pairEnc
  intro hmem
  rcases List.mem_append.mp hmem with h | h
  · exact amp_not_mem_escapeList k h
  · rcases List.mem_cons.mp h with h | h
    · exact absurd h (by decide)
    · exact amp_not_mem_escapeList v h

theorem pairEnc_inj {k1 v1 k2 v2 : List Char}
    (h : pairEnc k1 v1 = pairEnc k2 v2) : k1 = k2 ∧ v1 = v2 := by
  unfold pairEnc at h
  obtain ⟨h1, h2⟩ :=
    sep_append_inj (eq_not_mem_escapeList k1) (eq_not_mem_escapeList k2) h
  exact ⟨escapeList_inj h1, escapeList_inj h2⟩

theorem qsEnc_ne_nil (p : List Char × List Char)
    (rest : List (List Char × List Char)) : qsEnc (p :: rest) ≠ [] := by
  unfold qsEnc
  intro h
  exact pairEnc_ne_nil p.1 p.2 (List.append_eq_nil.mp h).1

theorem qsEnc_inj : ∀ {ps qs : List (List Char × List Char)},
    qsEnc ps = qsEnc qs → ps = qs := by
  intro ps
  induction ps with
  | nil =>
    intro qs h
    cases qs with
    | nil => rfl
    | cons q qs' => exact absurd h.symm (qsEnc_ne_nil q qs')
  | cons p ps' ih =>
    intro qs h
    cases qs with
    | nil => exact absurd h (qsEnc_ne_nil p ps')
    | cons q qs' =>
      simp only [qsEnc] at h
      cases ps' with
      | nil =>
        cases qs' with
        | nil =>
          simp only [List.isEmpty_nil, if_pos, List.append_nil] at h
          obtain ⟨h1, h2⟩ := pairEnc_inj h
          cases p; cases q
          simp_all
        | cons q' qs'' =>
          exfalso
          simp only [List.isEmpty_nil, List.isEmpty_cons, if_pos,
            List.append_nil] at h
          apply amp_not_mem_pairEnc p.1 p.2
          rw [h]
          exact List.mem_append_right _ (List.mem_cons_self '&' _)
      | cons p' ps'' =>
        cases qs' with
        | nil =>
          exfalso
          simp only [List.isEmpty_nil, List.isEmpty_cons, if_pos,
            List.append_nil] at h
          apply amp_not_mem_pairEnc q.1 q.2
          rw [← h]
          exact List.mem_append_right _ (List.mem_cons_self '&' _)
        | cons q' qs'' =>
          simp only [List.isEmpty_cons] at h
          obtain ⟨h1, h2⟩ :=
            sep_append_inj (amp_not_mem_pairEnc p.1 p.2)
              (amp_not_mem_pairEnc q.1 q.2) h
          obtain ⟨hk, hv⟩ := pairEnc_inj h1
          have := ih h2
          cases p; cases q
          simp_all

theorem serializeQueryString_inj {p1 p2 : Params}
    (h : serializeQueryString p1 = serializeQueryString p2) : p1 = p2 := by
  unfold serializeQueryString at h
  have h' := congrArg String.data h
  simp only at h'
  have hmap := qsEnc_inj h'
  refine List.map_injective_iff.mpr ?_ hmap
  intro a b hab
  simp only [Prod.mk.injEq] at hab
  obtain ⟨ha, hb⟩ := hab
  cases a; cases b
  simp_all [String.ext_iff]

theorem appendParamsToURL_params_inj {u : String} {p1 p2 : Params}
    (h : appendParamsToURL u p1 = appendParamsToURL u p2) : p1 = p2 := by
  unfold appendParamsToURL at h
  split_ifs at h with h1 h2 h2
  · rw [List.isEmpty_iff.mp h1, List.isEmpty_iff.mp h2]
  · exfalso
    have := congrArg (fun s : String => s.data.length) h
    simp [String.data_append] at this
  · exfalso
    have := congrArg (fun s : String => s.data.length) h
    simp [String.data_append] at this
  · have hd := congrArg String.data h
    simp only [String.data_append] at hd
    have := List.append_cancel_left hd
    exact serializeQueryString_inj (String.ext this)

theorem appendParamsToURL_base_inj {u1 u2 : String} {p : Params}
    (h : appendParamsToURL u1 p = appendParamsToURL u2 p) : u1 = u2 := by
  unfold appendParamsToURL at h
  split_ifs at h
  · exact h
  · have hd := congrArg String.data h
    simp only [String.data_append, List.append_assoc] at hd
    exact String.ext (List.append_cancel_right hd)

/- ### Basic bridges between `List.contains` (the JS `Set.has`) and `∈` -/

theorem contains_true_iff (l : List String) (a : String) :
    l.contains a = true ↔ a ∈ l :=
  List.elem_iff

theorem contains_false_iff (l : List String) (a : String) :
    l.contains a = false ↔ a ∉ l := by
  rw [Bool.eq_false_iff]
  exact not_congr (contains_true_iff l a)

theorem contains_cons_preserve {l : List String} {a : String} (c : String)
    (h : l.contains a = true) : (c :: l).contains a = true := by
  rw [contains_true_iff] at h ⊢
  exact List.mem_cons_of_mem c h

theorem contains_cons_ne {l : List String} {a c : String} (hne : c ≠ a) :
    (c :: l).contains a = l.contains a := by
  cases h : l.contains a with
  | true => exact contains_cons_preserve c h
  | false =>
    rw [contains_false_iff] at h ⊢
    intro hm
    rcases List.mem_cons.mp hm with h' | h'
    · exact hne h'.symm
    · exact h h'

/- ### The composed URL stays in sync with the configuration -/

/-- The spec's derived-state invariant: `srcWithParams` equals the composed
URL of the current `embedSrc` and `params`. -/
def inSync (st : EmbedState) : Prop :=
  st.srcWithParams = appendParamsToURL st.embedSrc st.params

theorem srcChangeRun_st (pc : String → Bool) (conn : List String)
    (st : EmbedState) :
    (srcChangeRun pc conn st).st
      = { st with srcWithParams := appendParamsToURL st.embedSrc st.params } := by
  simp only [srcChangeRun]
  split <;> rfl

theorem srcChangeRun_inSync (pc : String → Bool) (conn : List String)
    (st : EmbedState) : inSync (srcChangeRun pc conn st).st := by
  rw [srcChangeRun_st]
  rfl

theorem instStep_inSync (pc : String → Bool) (conn : List String)
    (st : EmbedState) (e : Event) (h : inSync st) :
    inSync (instStep pc conn st e).st := by
  cases e <;>
    first
      | exact srcChangeRun_inSync pc conn _
      | exact h

theorem instTrace_inSync (pc : String → Bool) (evts : List Event) :
    ∀ (conn : List String) (st : EmbedState), inSync st →
      inSync (instTrace pc conn st evts).st := by
  induction evts with
  | nil => intro conn st h; exact h
  | cons e rest ih =>
    intro conn st h
    simp only [instTrace]
    exact ih _ _ (instStep_inSync pc conn st e h)

theorem initState_inSync : inSync initState := rfl

/- ### The viewport-entered flag is monotone -/

theorem instStep_viewport_mono (pc : String → Bool) (conn : List String)
    (st : EmbedState) (e : Event) (h : st.hasEnteredViewport = true) :
    (instStep pc conn st e).st.hasEnteredViewport = true := by
  cases e <;> simp only [instStep, srcChangeRun_st] <;> exact h

theorem instTrace_viewport_mono (pc : String → Bool) (evts : List Event) :
    ∀ (conn : List String) (st : EmbedState), st.hasEnteredViewport = true →
      (instTrace pc conn st evts).st.hasEnteredViewport = true := by
  induction evts with
  | nil => intro conn st h; exact h
  | cons e rest ih =>
    intro conn st h
    simp only [instTrace]
    exact ih _ _ (instStep_viewport_mono pc conn st e h)

/- ### After viewport entry, no step performs any preconnect call -/

theorem onWindowMessage_filter_hint (st : EmbedState)
    (src : Option WindowHandle) (org data : String) :
    List.filter isHint (onWindowMessage st src org data) = [] := by
  simp only [onWindowMessage]
  repeat' split
  all_goals rfl

theorem postMessageRun_filter_hint (st : EmbedState) (m : JSValue)
    (t : Option String) : List.filter isHint (postMessageRun st m t) = [] := by
  unfold postMessageRun
  repeat' split
  all_goals rfl

theorem srcChangeRun_no_hint (pc : String → Bool) (conn : List String)
    (st : EmbedState) (h : st.hasEnteredViewport = true) :
    List.filter isHint (srcChangeRun pc conn st).effs = [] := by
  simp only [srcChangeRun]
  split
  · rfl
  · unfold srcWithParamsChangeRun
    simp [h, isHint]

theorem instStep_no_hint (pc : String → Bool) (conn : List String)
    (st : EmbedState) (e : Event) (h : st.hasEnteredViewport = true) :
    List.filter isHint (instStep pc conn st e).effs = [] := by
  cases e <;>
    first
      | exact srcChangeRun_no_hint pc conn _ h
      | exact onWindowMessage_filter_hint ..
      | exact postMessageRun_filter_hint ..
      | rfl
      | (simp only [instStep, preconnectionsChangeRun, h]; rfl)

theorem instTrace_no_hint (pc : String → Bool) (evts : List Event) :
    ∀ (conn : List String) (st : EmbedState), st.hasEnteredViewport = true →
      List.filter isHint (instTrace pc conn st evts).effs = [] := by
  induction evts with
  | nil => intro conn st h; rfl
  | cons e rest ih =>
    intro conn st h
    simp only [instTrace, List.filter_append]
    rw [instStep_no_hint pc conn st e h,
      ih _ _ (instStep_viewport_mono pc conn st e h)]
    rfl

/- ### The dedup ledger: successful hints counted per recorded key -/

theorem hintKeyCount_append (k : String) (a b : List Effect) :
    hintKeyCount k (a ++ b) = hintKeyCount k a + hintKeyCount k b := by
  simp [hintKeyCount, List.filter_append]

theorem hintKeyCount_cons_hint (k key url : String) (ok : Bool)
    (effs : List Effect) :
    hintKeyCount k (Effect.hint key url ok :: effs)
      = (if key = k ∧ ok = true then 1 else 0) + hintKeyCount k effs := by
  simp only [hintKeyCount, List.filter_cons, isKeyHint]
  split_ifs with h1 h2 h2
  · simp only [List.length_cons]
    omega
  · simp only [Bool.and_eq_true, beq_iff_eq] at h1
    exact absurd h1 h2
  · simp only [Bool.and_eq_true, beq_iff_eq] at h1
    exact absurd h2 h1
  · simp

theorem hintKeyCount_cons_other (k : String) (e : Effect)
    (h : isHint e = false) (effs : List Effect) :
    hintKeyCount k (e :: effs) = hintKeyCount k effs := by
  have : isKeyHint k e = false := by
    cases e <;> simp_all [isHint, isKeyHint]
  simp [hintKeyCount, List.filter_cons, this]

theorem hintKeyCount_of_no_hint (k : String) {effs : List Effect}
    (h : List.filter isHint effs = []) : hintKeyCount k effs = 0 := by
  induction effs with
  | nil => rfl
  | cons e rest ih =>
    by_cases he : isHint e = true
    · rw [List.filter_cons, if_pos he] at h
      simp at h
    · rw [List.filter_cons, if_neg he] at h
      rw [hintKeyCount_cons_other k e (Bool.eq_false_iff.mpr he) rest]
      exact ih h

theorem runPreconnects_not_mem (pc : String → Bool) :
    ∀ (todo conn : List String) (k : String), k ∉ todo →
      hintKeyCount k (runPreconnects pc todo conn).2 = 0 ∧
      (runPreconnects pc todo conn).1.contains k = conn.contains k := by
  intro todo
  induction todo with
  | nil => intro conn k _; exact ⟨rfl, rfl⟩
  | cons c rest ih =>
    intro conn k h
    have hck : c ≠ k := fun hc => h (hc ▸ List.mem_cons_self c rest)
    have hk : k ∉ rest := fun hm => h (List.mem_cons_of_mem c hm)
    simp only [runPreconnects]
    obtain ⟨ih1, ih2⟩ := ih (if pc c then c :: conn else conn) k hk
    constructor
    · rw [hintKeyCount_cons_hint, ih1]
      simp [hck]
    · rw [ih2]
      split
      · exact contains_cons_ne hck
      · rfl

theorem runPreconnects_nodup_count (pc : String → Bool) :
    ∀ (todo conn : List String) (k : String), listNodupb todo = true →
      conn.contains k = false →
      hintKeyCount k (runPreconnects pc todo conn).2 ≤ 1 ∧
      (hintKeyCount k (runPreconnects pc todo conn).2 = 1 →
        (runPreconnects pc todo conn).1.contains k = true) := by
  intro todo
  induction todo with
  | nil => intro conn k _ _; exact ⟨by simp [runPreconnects, hintKeyCount], by simp [runPreconnects, hintKeyCount]⟩
  | cons c rest ih =>
    intro conn k hnd hc
    simp only [listNodupb, Bool.and_eq_true, Bool.not_eq_true'] at hnd
    obtain ⟨hcrest, hndrest⟩ := hnd
    simp only [runPreconnects]
    by_cases hck : c = k
    · subst hck
      have hkrest : c ∉ rest := (contains_false_iff rest c).mp hcrest
      obtain ⟨z1, z2⟩ :=
        runPreconnects_not_mem pc rest (if pc c then c :: conn else conn) c hkrest
      rw [hintKeyCount_cons_hint, z1]
      cases hpc : pc c with
      | true =>
        rw [hpc] at z2
        refine ⟨by simp, fun _ => ?_⟩
        rw [z2]
        simp [contains_true_iff]
      | false =>
        refine ⟨by simp, fun h1 => ?_⟩
        simp at h1
    · obtain ⟨i1, i2⟩ := ih (if pc c then c :: conn else conn) k hndrest
        (by split
            · rw [contains_cons_ne hck]; exact hc
            · exact hc)
      rw [hintKeyCount_cons_hint]
      simp only [hck, false_and, if_false, Nat.zero_add]
      exact ⟨i1, i2⟩

theorem srcWithParamsChangeRun_count_mem (pc : String → Bool)
    (conn : List String) (st : EmbedState) (k : String)
    (h : conn.contains k = true) :
    hintKeyCount k (srcWithParamsChangeRun pc conn st).2 = 0 ∧
    (srcWithParamsChangeRun pc conn st).1.contains k = true := by
  simp only [srcWithParamsChangeRun]
  split
  · next hguard =>
    simp only [Bool.and_eq_true, Bool.not_eq_true'] at hguard
    have hek : st.embedSrc ≠ k := fun he => by
      rw [he] at hguard
      rw [hguard.2] at h
      exact Bool.false_ne_true h
    constructor
    · rw [hintKeyCount_cons_hint]
      simp only [hek, false_and, if_false, Nat.zero_add]
      rfl
    · split
      · exact contains_cons_preserve _ h
      · exact h
  · exact ⟨rfl, h⟩

theorem srcWithParamsChangeRun_count_not_mem (pc : String → Bool)
    (conn : List String) (st : EmbedState) (k : String)
    (_h : conn.contains k = false) :
    hintKeyCount k (srcWithParamsChangeRun pc conn st).2 ≤ 1 ∧
    (hintKeyCount k (srcWithParamsChangeRun pc conn st).2 = 1 →
      (srcWithParamsChangeRun pc conn st).1.contains k = true) := by
  simp only [srcWithParamsChangeRun]
  split
  · rw [hintKeyCount_cons_hint]
    have h0 : hintKeyCount k [Effect.srcChangeEmit st.srcWithParams] = 0 := rfl
    rw [h0]
    cases hpc : pc st.srcWithParams with
    | false =>
      refine ⟨by simp, fun h1 => ?_⟩
      simp at h1
    | true =>
      by_cases hek : st.embedSrc = k
      · refine ⟨by simp [hek], fun _ => ?_⟩
        rw [← hek]
        simp [contains_true_iff]
      · refine ⟨by simp [hek], fun h1 => ?_⟩
        simp [hek] at h1
  · exact ⟨by simp [hintKeyCount, isKeyHint], by simp [hintKeyCount, isKeyHint]⟩

theorem srcChangeRun_count_mem (pc : String → Bool) (conn : List String)
    (st : EmbedState) (k : String) (h : conn.contains k = true) :
    hintKeyCount k (srcChangeRun pc conn st).effs = 0 ∧
    (srcChangeRun pc conn st).conn.contains k = true := by
  simp only [srcChangeRun]
  split
  · exact ⟨rfl, h⟩
  · exact srcWithParamsChangeRun_count_mem pc conn _ k h

theorem srcChangeRun_count_not_mem (pc : String → Bool) (conn : List String)
    (st : EmbedState) (k : String) (h : conn.contains k = false) :
    hintKeyCount k (srcChangeRun pc conn st).effs ≤ 1 ∧
    (hintKeyCount k (srcChangeRun pc conn st).effs = 1 →
      (srcChangeRun pc conn st).conn.contains k = true) := by
  simp only [srcChangeRun]
  split
  · exact ⟨by simp [hintKeyCount], fun h1 => by simp [hintKeyCount] at h1⟩
  · exact srcWithParamsChangeRun_count_not_mem pc conn _ k h

theorem contains_filter_false (p : String → Bool) {l : List String} {a : String}
    (h : l.contains a = false) : (l.filter p).contains a = false := by
  rw [contains_false_iff] at h ⊢
  intro hm
  exact h (List.mem_of_mem_filter hm)

theorem listNodupb_filter (p : String → Bool) :
    ∀ l : List String, listNodupb l = true → listNodupb (l.filter p) = true := by
  intro l
  induction l with
  | nil => intro _; rfl
  | cons c rest ih =>
    intro h
    simp only [listNodupb, Bool.and_eq_true, Bool.not_eq_true'] at h
    obtain ⟨h1, h2⟩ := h
    rw [List.filter_cons]
    split
    · simp only [listNodupb, Bool.and_eq_true, Bool.not_eq_true']
      exact ⟨contains_filter_false p h1, ih h2⟩
    · exact ih h2

theorem instStep_count_mem (pc : String → Bool) (conn : List String)
    (st : EmbedState) (e : Event) (k : String) (h : conn.contains k = true) :
    hintKeyCount k (instStep pc conn st e).effs = 0 ∧
    (instStep pc conn st e).conn.contains k = true := by
  cases e with
  | setEmbedSrc s => exact srcChangeRun_count_mem pc conn _ k h
  | setParams p => exact srcChangeRun_count_mem pc conn _ k h
  | connect => exact srcChangeRun_count_mem pc conn _ k h
  | setPreconnections l =>
    simp only [instStep, preconnectionsChangeRun]
    split
    · exact ⟨rfl, h⟩
    · have hk : k ∉ (({ st with preconnections := l }).preconnections.filter
          fun c => !(conn.contains c)) := by
        intro hm
        have hp := List.of_mem_filter hm
        rw [h] at hp
        simp at hp
      obtain ⟨z1, z2⟩ := runPreconnects_not_mem pc _ conn k hk
      exact ⟨z1, by rw [z2]; exact h⟩
  | windowMessage src org data =>
    exact ⟨hintKeyCount_of_no_hint k (onWindowMessage_filter_hint st src org data), h⟩
  | post m t =>
    exact ⟨hintKeyCount_of_no_hint k (postMessageRun_filter_hint st m t), h⟩
  | load => exact ⟨rfl, h⟩
  | setLazy b => exact ⟨rfl, h⟩
  | setOrigin o => exact ⟨rfl, h⟩
  | setDecoder d => exact ⟨rfl, h⟩
  | disconnect => exact ⟨rfl, h⟩
  | enterViewport => exact ⟨rfl, h⟩
  | attachIframe i => exact ⟨rfl, h⟩

theorem instStep_count_not_mem (pc : String → Bool) (conn : List String)
    (st : EmbedState) (e : Event) (k : String) (h : conn.contains k = false)
    (hn : nodupOKb e = true) :
    hintKeyCount k (instStep pc conn st e).effs ≤ 1 ∧
    (hintKeyCount k (instStep pc conn st e).effs = 1 →
      (instStep pc conn st e).conn.contains k = true) := by
  cases e with
  | setEmbedSrc s => exact srcChangeRun_count_not_mem pc conn _ k h
  | setParams p => exact srcChangeRun_count_not_mem pc conn _ k h
  | connect => exact srcChangeRun_count_not_mem pc conn _ k h
  | setPreconnections l =>
    simp only [nodupOKb] at hn
    simp only [instStep, preconnectionsChangeRun]
    split
    · exact ⟨by simp [hintKeyCount], fun h1 => by simp [hintKeyCount] at h1⟩
    · have hnd : listNodupb (({ st with preconnections := l }).preconnections.filter
          fun c => !(conn.contains c)) = true :=
        listNodupb_filter _ l hn
      exact runPreconnects_nodup_count pc _ conn k hnd h
  | windowMessage src org data =>
    have h0 := hintKeyCount_of_no_hint k (onWindowMessage_filter_hint st src org data)
    simp only [instStep]
    exact ⟨by rw [h0]; omega, fun h1 => by rw [h0] at h1; simp at h1⟩
  | post m t =>
    have h0 := hintKeyCount_of_no_hint k (postMessageRun_filter_hint st m t)
    simp only [instStep]
    exact ⟨by rw [h0]; omega, fun h1 => by rw [h0] at h1; simp at h1⟩
  | load =>
    exact ⟨by simp [instStep, hintKeyCount, isKeyHint],
      fun h1 => by simp [instStep, hintKeyCount, isKeyHint] at h1⟩
  | setLazy b =>
    exact ⟨by simp [instStep, hintKeyCount],
      fun h1 => by simp [instStep, hintKeyCount] at h1⟩
  | setOrigin o =>
    exact ⟨by simp [instStep, hintKeyCount],
      fun h1 => by simp [instStep, hintKeyCount] at h1⟩
  | setDecoder d =>
    exact ⟨by simp [instStep, hintKeyCount],
      fun h1 => by simp [instStep, hintKeyCount] at h1⟩
  | disconnect =>
    exact ⟨by simp [instStep, hintKeyCount],
      fun h1 => by simp [instStep, hintKeyCount] at h1⟩
  | enterViewport =>
    exact ⟨by simp [instStep, hintKeyCount],
      fun h1 => by simp [instStep, hintKeyCount] at h1⟩
  | attachIframe i =>
    exact ⟨by simp [instStep, hintKeyCount],
      fun h1 => by simp [instStep, hintKeyCount] at h1⟩

theorem gstep_count_mem (pc : String → Bool) (gs : GlobalState)
    (ge : Nat × Event) (k : String) (h : gs.conn.contains k = true) :
    hintKeyCount k (gstep pc gs ge).2 = 0 ∧
    (gstep pc gs ge).1.conn.contains k = true := by
  obtain ⟨i, e⟩ := ge
  simp only [gstep]
  split
  · exact ⟨rfl, h⟩
  · exact instStep_count_mem pc gs.conn _ e k h

theorem gstep_count_not_mem (pc : String → Bool) (gs : GlobalState)
    (ge : Nat × Event) (k : String) (h : gs.conn.contains k = false)
    (hn : nodupOKb ge.2 = true) :
    hintKeyCount k (gstep pc gs ge).2 ≤ 1 ∧
    (hintKeyCount k (gstep pc gs ge).2 = 1 →
      (gstep pc gs ge).1.conn.contains k = true) := by
  obtain ⟨i, e⟩ := ge
  simp only [gstep]
  split
  · exact ⟨by simp [hintKeyCount], fun h1 => by simp [hintKeyCount] at h1⟩
  · exact instStep_count_not_mem pc gs.conn _ e k h hn

theorem gtrace_count (pc : String → Bool) (k : String) :
    ∀ (evts : List (Nat × Event)) (gs : GlobalState),
      (∀ e ∈ evts, nodupOKb e.2 = true) →
      hintKeyCount k (gtrace pc gs evts).2 ≤ 1 ∧
      (gs.conn.contains k = true → hintKeyCount k (gtrace pc gs evts).2 = 0) := by
  intro evts
  induction evts with
  | nil =>
    intro gs _
    exact ⟨by simp [gtrace, hintKeyCount], fun _ => by simp [gtrace, hintKeyCount]⟩
  | cons e rest ih =>
    intro gs hall
    have he : nodupOKb e.2 = true := hall e (List.mem_cons_self e rest)
    have hrest : ∀ e' ∈ rest, nodupOKb e'.2 = true :=
      fun e' hm => hall e' (List.mem_cons_of_mem e hm)
    simp only [gtrace]
    rw [hintKeyCount_append]
    by_cases hc : gs.conn.contains k = true
    · obtain ⟨s1, s2⟩ := gstep_count_mem pc gs e k hc
      obtain ⟨r1, r2⟩ := ih (gstep pc gs e).1 hrest
      rw [s1, r2 s2]
      exact ⟨by omega, fun _ => rfl⟩
    · have hc' : gs.conn.contains k = false := Bool.eq_false_iff.mpr hc
      obtain ⟨s1, s2⟩ := gstep_count_not_mem pc gs e k hc' he
      obtain ⟨r1, r2⟩ := ih (gstep pc gs e).1 hrest
      constructor
      · by_cases h1 : hintKeyCount k (gstep pc gs e).2 = 1
        · rw [h1, r2 (s2 h1)]
        · omega
      · intro hcc
        exact absurd hcc hc

/- ### Claim theorems -/

theorem srcChangeEmit_mem_srcWithParamsChangeRun (pc : String → Bool)
    (conn : List String) (st : EmbedState) :
    Effect.srcChangeEmit st.srcWithParams ∈ (srcWithParamsChangeRun pc conn st).2 := by
  simp only [srcWithParamsChangeRun]
  split <;> simp

/-- C2: a `message` event whose declared source is not this instance's own
browsing-context handle (its iframe's `contentWindow`, or no handle at all
when the iframe ref is unset) is never forwarded: `onWindowMessage`
produces no effects, in particular no `embedMessage` emission — for any
origin value, whether or not an expected `origin` is configured. -/
theorem foreign_source_never_forwarded (pc : String → Bool)
    (conn : List String) (st : EmbedState) (src : Option WindowHandle)
    (org data : String)
    (h : ∀ ifr, st.iframe = some ifr → src ≠ ifr.contentWindow) :
    (instStep pc conn st (Event.windowMessage src org data)).effs = [] := by
  simp only [instStep, onWindowMessage]
  cases hif : st.iframe with
  | none => simp
  | some ifr =>
    have hne : src ≠ ifr.contentWindow := h ifr hif
    have hb : (src == ifr.contentWindow) = false := beq_eq_false_iff_ne.mpr hne
    simp [hb]

theorem foreign_source_never_forwarded_witness :
    (∀ ifr, (some ⟨some 1⟩ : Option Iframe) = some ifr →
      (some 2 : Option WindowHandle) ≠ ifr.contentWindow) ∧
    (instStep (fun _ => true) [] { initState with iframe := some ⟨some 1⟩ }
      (Event.windowMessage (some 2) "https://player.example" "hello")).effs = [] := by
  have hyp : ∀ ifr, (some ⟨some 1⟩ : Option Iframe) = some ifr →
      (some 2 : Option WindowHandle) ≠ ifr.contentWindow := by
    intro ifr hif
    injection hif with h
    rw [← h]
    decide
  exact ⟨hyp, foreign_source_never_forwarded (fun _ => true) [] _ (some 2) _ _ hyp⟩

/-- C3: when an expected `origin` is configured, a `message` event whose
declared origin differs from it is never forwarded — even when its source
handle matches the instance's own browsing context. -/
theorem mismatched_origin_never_forwarded (pc : String → Bool)
    (conn : List String) (st : EmbedState) (src : Option WindowHandle)
    (org data o : String) (ho : st.origin = some o) (hne : o ≠ org) :
    (instStep pc conn st (Event.windowMessage src org data)).effs = [] := by
  simp only [instStep, onWindowMessage]
  have h1 : (st.origin == some org) = false := by
    rw [ho]
    simp [hne]
  have h2 : isString st.origin = true := by rw [ho]; rfl
  simp [h1, h2]

theorem mismatched_origin_never_forwarded_witness :
    ({ initState with
        origin := some "https://player.example",
        iframe := some ⟨some 1⟩ } : EmbedState).origin = some "https://player.example" ∧
    "https://player.example" ≠ "https://evil.example" ∧
    (instStep (fun _ => true) []
      { initState with origin := some "https://player.example", iframe := some ⟨some 1⟩ }
      (Event.windowMessage (some 1) "https://evil.example" "hello")).effs = [] :=
  ⟨rfl, by decide,
    mismatched_origin_never_forwarded (fun _ => true) [] _ (some 1) _ "hello"
      "https://player.example" rfl (by decide)⟩

/-- C1 (counterexample): with a decoder configured that returns an empty
result for the payload, a message passing both identity checks is still
forwarded: `this.decoder?.(e.data) ?? e.data` falls back to the raw
payload, which is truthy here, so an `embedMessage` notification is
emitted rather than suppressed. -/
theorem decoder_empty_result_cex :
    (instStep (fun _ => true) []
        { initState with
            iframe := some ⟨some 1⟩,
            decoder := some (fun _ => none) }
        (Event.windowMessage (some 1) "https://player.example" "hello")).effs
      = [Effect.messageEmit (MsgPayload.raw "hello")] := rfl

/-- C1 (amended): for a message passing the handle-identity and origin
checks, a configured decoder returning an empty/absent result does not by
itself suppress the notification: the raw payload is forwarded in its
place, and the notification is suppressed only when the raw payload is
itself empty. -/
theorem decoder_empty_falls_back_to_raw (pc : String → Bool)
    (conn : List String) (st : EmbedState) (ifr : Iframe)
    (src : Option WindowHandle) (org data : String)
    (d : String → Option Params)
    (hif : st.iframe = some ifr) (hsrc : src = ifr.contentWindow)
    (horg : st.origin = none ∨ st.origin = some org)
    (hd : st.decoder = some d) (hrej : d data = none) :
    (instStep pc conn st (Event.windowMessage src org data)).effs
      = if data = "" then [] else [Effect.messageEmit (MsgPayload.raw data)] := by
  rcases horg with ho | ho <;>
    [skip; skip] <;>
    · by_cases hdata : data = ""
      · subst hdata
        simp [instStep, onWindowMessage, hif, hsrc, hd, hrej, ho, truthy, isString]
      · simp [instStep, onWindowMessage, hif, hsrc, hd, hrej, ho, truthy, isString, hdata]

theorem decoder_empty_falls_back_to_raw_witness :
    ({ initState with
        iframe := some ⟨some 1⟩,
        decoder := some (fun _ => none) } : EmbedState).decoder
        = some (fun _ => (none : Option Params)) ∧
    (fun _ : String => (none : Option Params)) "hello" = none ∧
    (instStep (fun _ => true) []
        { initState with
            iframe := some ⟨some 1⟩,
            decoder := some (fun _ => none) }
        (Event.windowMessage (some 1) "https://player.example" "hello")).effs
      = if "hello" = "" then [] else [Effect.messageEmit (MsgPayload.raw "hello")] :=
  ⟨rfl, rfl,
    decoder_empty_falls_back_to_raw (fun _ => true) [] _ ⟨some 1⟩ (some 1)
      "https://player.example" "hello" (fun _ => none) rfl rfl (Or.inl rfl) rfl rfl⟩

/-- C7: once an instance's viewport-entered flag is true, that instance
never issues another preconnect call: any further sequence of events
(composed-URL changes, `preconnections` changes, or anything else)
produces zero `preconnect` calls. -/
theorem no_hints_after_viewport_entry (pc : String → Bool)
    (conn : List String) (st : EmbedState) (evts : List Event)
    (h : st.hasEnteredViewport = true) :
    List.filter isHint (instTrace pc conn st evts).effs = [] :=
  instTrace_no_hint pc evts conn st h

theorem no_hints_after_viewport_entry_witness :
    ({ initState with hasEnteredViewport := true } : EmbedState).hasEnteredViewport = true ∧
    List.filter isHint
      (instTrace (fun _ => true) [] { initState with hasEnteredViewport := true }
        [Event.setEmbedSrc "https://player.example/embed/abc",
         Event.setPreconnections ["https://cdn.a", "https://cdn.b"]]).effs = [] :=
  ⟨rfl, no_hints_after_viewport_entry (fun _ => true) [] _ _ rfl⟩

/-- C9: the viewport-entered flag starts false, and from any state in which
it is true it remains true under every sequence of events on the instance —
so it transitions from false to true at most once and never reverts. -/
theorem viewport_flag_monotone (pc : String → Bool) :
    initState.hasEnteredViewport = false ∧
    (∀ (conn : List String) (st : EmbedState) (evts : List Event),
      st.hasEnteredViewport = true →
      (instTrace pc conn st evts).st.hasEnteredViewport = true) :=
  ⟨rfl, fun conn st evts h => instTrace_viewport_mono pc evts conn st h⟩

theorem viewport_flag_monotone_witness :
    ({ initState with hasEnteredViewport := true } : EmbedState).hasEnteredViewport = true ∧
    (instTrace (fun _ => true) [] { initState with hasEnteredViewport := true }
      [Event.setLazy false, Event.enterViewport, Event.disconnect,
        Event.connect]).st.hasEnteredViewport = true :=
  ⟨rfl, (viewport_flag_monotone (fun _ => true)).2 [] _ _ rfl⟩

/-- C4 (counterexample): two underlying preconnect calls are issued for the
same destination key by a single `preconnections` update that lists the URL
twice — the pending list is filtered against the `connected` set once,
before the loop, and is not re-checked as the loop records keys. -/
theorem hint_at_most_once_cex :
    ¬ (urlHintCount "https://cdn.a"
        (gtrace (fun _ => true) (ginit 1)
          [(0, Event.setPreconnections ["https://cdn.a", "https://cdn.a"])]).2 ≤ 1) := by
  decide

/-- C4 (amended): across the whole process and all instances, at most one
successful preconnect call is recorded under any dedup key `k` — the key
being the instance's `embedSrc` for composed-URL hints and the listed URL
itself for `preconnections` hints — provided every installed
`preconnections` list is duplicate-free.  The original per-destination-URL
bound fails: duplicate list entries defeat it (see the counterexample), and
a composed-URL hint preconnects the full `srcWithParams` while recording
only `embedSrc`, so one URL can be hinted once under each of several
keys. -/
theorem hint_at_most_once_per_key (pc : String → Bool) (n : Nat)
    (evts : List (Nat × Event)) (k : String)
    (hnd : ∀ e ∈ evts, nodupOKb e.2 = true) :
    hintKeyCount k (gtrace pc (ginit n) evts).2 ≤ 1 :=
  (gtrace_count pc k evts (ginit n) hnd).1

theorem hint_at_most_once_per_key_witness :
    (∀ e ∈ ([(0, Event.setPreconnections ["https://cdn.a"]),
        (1, Event.setPreconnections ["https://cdn.a"])] : List (Nat × Event)),
      nodupOKb e.2 = true) ∧
    hintKeyCount "https://cdn.a"
      (gtrace (fun _ => true) (ginit 2)
        [(0, Event.setPreconnections ["https://cdn.a"]),
         (1, Event.setPreconnections ["https://cdn.a"])]).2 ≤ 1 :=
  ⟨by decide,
    hint_at_most_once_per_key (fun _ => true) 2 _ "https://cdn.a" (by decide)⟩

/-- C5: over every state reachable from a fresh instance, with `lazy` true
the browsing context is given no `src` while the viewport has not been
entered, and with `lazy` false it is given the composed URL immediately. -/
theorem lazy_gates_iframe_src (pc : String → Bool) (conn : List String)
    (evts : List Event) :
    (((instTrace pc conn initState evts).st.lazy = true ∧
        (instTrace pc conn initState evts).st.hasEnteredViewport = false) →
      renderSrc (instTrace pc conn initState evts).st = none) ∧
    ((instTrace pc conn initState evts).st.lazy = false →
      renderSrc (instTrace pc conn initState evts).st
        = some (appendParamsToURL
            (instTrace pc conn initState evts).st.embedSrc
            (instTrace pc conn initState evts).st.params)) := by
  have hsync := instTrace_inSync pc evts conn initState initState_inSync
  unfold inSync at hsync
  constructor
  · rintro ⟨hl, hv⟩
    unfold renderSrc
    rw [hl, hv]
    rfl
  · intro hl
    unfold renderSrc
    rw [hl, hsync]
    rfl

theorem lazy_gates_iframe_src_witness :
    ((instTrace (fun _ => true) [] initState []).st.lazy = true ∧
      (instTrace (fun _ => true) [] initState []).st.hasEnteredViewport = false ∧
      renderSrc (instTrace (fun _ => true) [] initState []).st = none) ∧
    ((instTrace (fun _ => true) [] initState [Event.setLazy false]).st.lazy = false ∧
      renderSrc (instTrace (fun _ => true) [] initState [Event.setLazy false]).st
        = some (appendParamsToURL
            (instTrace (fun _ => true) [] initState [Event.setLazy false]).st.embedSrc
            (instTrace (fun _ => true) [] initState [Event.setLazy false]).st.params)) :=
  ⟨⟨rfl, rfl, (lazy_gates_iframe_src (fun _ => true) [] []).1 ⟨rfl, rfl⟩⟩,
    ⟨rfl, (lazy_gates_iframe_src (fun _ => true) [] [Event.setLazy false]).2 rfl⟩⟩

/-- C6: from any state satisfying the composed-URL sync invariant (which
holds in every state reachable from a fresh instance, by
`instTrace_inSync`), changing `embedSrc` or `params` to a different value
recomputes `srcWithParams = appendParamsToURL embedSrc params` and emits
the `embedSrcChange` notification carrying the new composed URL — with no
condition on the lifecycle state (in particular also before viewport
entry). -/
theorem src_change_recomputes_and_emits (pc : String → Bool)
    (conn : List String) (st : EmbedState)
    (hsync : st.srcWithParams = appendParamsToURL st.embedSrc st.params) :
    (∀ s, s ≠ st.embedSrc →
      (instStep pc conn st (Event.setEmbedSrc s)).st.srcWithParams
          = appendParamsToURL s st.params ∧
        Effect.srcChangeEmit (appendParamsToURL s st.params)
          ∈ (instStep pc conn st (Event.setEmbedSrc s)).effs) ∧
    (∀ p, p ≠ st.params →
      (instStep pc conn st (Event.setParams p)).st.srcWithParams
          = appendParamsToURL st.embedSrc p ∧
        Effect.srcChangeEmit (appendParamsToURL st.embedSrc p)
          ∈ (instStep pc conn st (Event.setParams p)).effs) := by
  constructor
  · intro s hs
    have hst : (instStep pc conn st (Event.setEmbedSrc s)).st.srcWithParams
        = appendParamsToURL s st.params := by
      show (srcChangeRun pc conn { st with embedSrc := s }).st.srcWithParams = _
      rw [srcChangeRun_st]
    refine ⟨hst, ?_⟩
    have hchange : appendParamsToURL s st.params ≠ st.srcWithParams := by
      rw [hsync]
      intro he
      exact hs (appendParamsToURL_base_inj he)
    show Effect.srcChangeEmit _ ∈ (srcChangeRun pc conn { st with embedSrc := s }).effs
    simp only [srcChangeRun]
    split
    · next heq => exact absurd heq hchange
    · exact srcChangeEmit_mem_srcWithParamsChangeRun pc conn _
  · intro p hp
    have hst : (instStep pc conn st (Event.setParams p)).st.srcWithParams
        = appendParamsToURL st.embedSrc p := by
      show (srcChangeRun pc conn { st with params := p }).st.srcWithParams = _
      rw [srcChangeRun_st]
    refine ⟨hst, ?_⟩
    have hchange : appendParamsToURL st.embedSrc p ≠ st.srcWithParams := by
      rw [hsync]
      intro he
      exact hp (appendParamsToURL_params_inj he)
    show Effect.srcChangeEmit _ ∈ (srcChangeRun pc conn { st with params := p }).effs
    simp only [srcChangeRun]
    split
    · next heq => exact absurd heq hchange
    · exact srcChangeEmit_mem_srcWithParamsChangeRun pc conn _

theorem src_change_recomputes_and_emits_witness :
    (initState.srcWithParams = appendParamsToURL initState.embedSrc initState.params ∧
      "https://player.example/embed" ≠ initState.embedSrc) ∧
    (instStep (fun _ => true) [] initState
        (Event.setEmbedSrc "https://player.example/embed")).st.srcWithParams
      = appendParamsToURL "https://player.example/embed" initState.params ∧
    Effect.srcChangeEmit (appendParamsToURL "https://player.example/embed" initState.params)
      ∈ (instStep (fun _ => true) [] initState
          (Event.setEmbedSrc "https://player.example/embed")).effs := by
  have h := (src_change_recomputes_and_emits (fun _ => true) [] initState rfl).1
    "https://player.example/embed" (by decide)
  exact ⟨⟨rfl, by decide⟩, h.1, h.2⟩

/-- C8: calling `postMessage(message, target?)` before the browsing context
exists (no iframe ref, or an iframe whose `contentWindow` is absent) is a
total no-op delivering nothing; once the context exists, the message is
JSON-serialized and delivered to it, targeted at `target` when given and at
the wildcard target `*` otherwise. -/
theorem postMessage_noop_or_delivers (pc : String → Bool)
    (conn : List String) (st : EmbedState) (m : JSValue) (t : Option String) :
    (st.iframe.bind Iframe.contentWindow = none →
      (instStep pc conn st (Event.post m t)).effs = []) ∧
    (∀ w, st.iframe.bind Iframe.contentWindow = some w →
      (instStep pc conn st (Event.post m t)).effs
        = [Effect.postDelivery w (jsonStringify m) (t.getD "*")]) := by
  constructor
  · intro h
    simp only [instStep]
    unfold postMessageRun
    cases hif : st.iframe with
    | none => rfl
    | some ifr =>
      rw [hif] at h
      simp only [Option.some_bind] at h
      simp [h]
  · intro w h
    simp only [instStep]
    unfold postMessageRun
    cases hif : st.iframe with
    | none =>
      rw [hif] at h
      simp at h
    | some ifr =>
      rw [hif] at h
      simp only [Option.some_bind] at h
      simp [h]

theorem postMessage_noop_or_delivers_witness :
    (initState.iframe.bind Iframe.contentWindow = none ∧
      (instStep (fun _ => true) [] initState
        (Event.post (JSValue.obj [("cmd", JSValue.str "play")]) none)).effs = []) ∧
    (({ initState with iframe := some ⟨some 5⟩ } : EmbedState).iframe.bind
        Iframe.contentWindow = some 5 ∧
      (instStep (fun _ => true) [] { initState with iframe := some ⟨some 5⟩ }
          (Event.post (JSValue.obj [("cmd", JSValue.str "play")]) none)).effs
        = [Effect.postDelivery 5
            (jsonStringify (JSValue.obj [("cmd", JSValue.str "play")]))
            ((none : Option String).getD "*")]) :=
  ⟨⟨rfl, (postMessage_noop_or_delivers (fun _ => true) [] initState
      (JSValue.obj [("cmd", JSValue.str "play")]) none).1 rfl⟩,
   ⟨rfl, (postMessage_noop_or_delivers (fun _ => true) []
      { initState with iframe := some ⟨some 5⟩ }
      (JSValue.obj [("cmd", JSValue.str "play")]) none).2 5 rfl⟩⟩

/-- C10: at every render the iframe `src` equals the composed URL exactly
when `lazy` is false or the viewport has been entered, and is unset
otherwise; consequently setting `lazy` from false to true before viewport
entry removes a previously assigned source — the armed state is reversible
under reconfiguration of `lazy` even though the viewport flag itself never
reverts. -/
theorem render_src_iff_armed (pc : String → Bool) (conn : List String)
    (st : EmbedState) :
    (renderSrc st = some st.srcWithParams ↔
      (st.lazy = false ∨ st.hasEnteredViewport = true)) ∧
    (st.lazy = true → st.hasEnteredViewport = false → renderSrc st = none) ∧
    (st.hasEnteredViewport = false →
      renderSrc (instStep pc conn st (Event.setLazy true)).st = none) := by
  refine ⟨?_, ?_, ?_⟩
  · unfold renderSrc
    cases hl : st.lazy <;> cases hv : st.hasEnteredViewport <;> simp
  · intro hl hv
    unfold renderSrc
    rw [hl, hv]
    rfl
  · intro hv
    simp only [instStep]
    unfold renderSrc
    simp [hv]

theorem render_src_iff_armed_witness :
    (({ initState with lazy := false } : EmbedState).lazy = false ∧
      renderSrc ({ initState with lazy := false } : EmbedState)
        = some ({ initState with lazy := false } : EmbedState).srcWithParams) ∧
    (initState.lazy = true ∧ initState.hasEnteredViewport = false ∧
      renderSrc initState = none) ∧
    (({ initState with lazy := false } : EmbedState).hasEnteredViewport = false ∧
      renderSrc (instStep (fun _ => true) [] { initState with lazy := false }
        (Event.setLazy true)).st = none) :=
  ⟨⟨rfl, (render_src_iff_armed (fun _ => true) [] { initState with lazy := false }).1.mpr
      (Or.inl rfl)⟩,
   ⟨rfl, rfl, (render_src_iff_armed (fun _ => true) [] initState).2.1 rfl rfl⟩,
   ⟨rfl, (render_src_iff_armed (fun _ => true) [] { initState with lazy := false }).2.2 rfl⟩⟩
